import Mathlib

/-!
Shallow embedding of the `parsing` library (a TypeScript rule-driven lexer
and recursive-descent parser base): `src/lexer.ts`, `src/errors.ts`,
`src/parser.ts`, `src/token.ts`, together with spec-modelled stand-ins for
the files that are not in the sources (`parser.base.ts`, `enums.ts`).

Conventions of the embedding:
* source text is `List Char` (JS strings indexed by code unit);
* a JS regular expression is modelled by its observable behaviour inside
  `Lexer.match`: a function giving the length of the prefix of the
  remaining text that the regex matches, or `none`.  (`text.slice(start)
  .match(re)` followed by the `match.index != 0` test means that a match
  anywhere past index 0 is observationally the same as no match, and that
  `match[0]` is always a prefix of the remaining text.)
* thrown JS exceptions become `Except.error` values;
* the unbounded `while` loop of `tokenize` takes explicit fuel; the value
  `none` means the loop did not finish within the given fuel.
-/

/-- Token record (`src/token.ts`, shape `IToken` of `src/interfaces.ts`).
The source field `end` is called `endPos` here because `end` is reserved
in Lean.  `value` is the optional transformed payload. -/
structure IToken (α : Type) where
  tokenType : String
  lexeme : List Char
  start : Nat
  endPos : Nat
  line : Nat
  column : Nat
  value : Option α
  deriving Repr, DecidableEq

instance {α : Type} : Inhabited (IToken α) :=
  ⟨⟨"", [], 0, 0, 0, 0, none⟩⟩

/-- `Token.length` getter: the length of the lexeme string literal. -/
def IToken.length {α : Type} (t : IToken α) : Nat :=
  t.lexeme.length

/-- Modelled from the spec: `src/enums.ts` (the `TextSymbol` enum) is not
among the sources; the spec fixes the newline used by "split on newline"
and the line/column counting, and the tests fix the caret / filler marker
characters of the diagnostic diagrams. -/
def TextSymbol.NEWLINE : Char := '\n'

/-- Modelled from the spec: the filler character of a diagnostic marker
line (`TextSymbol.MINUS` of the missing `src/enums.ts`). -/
def TextSymbol.MINUS : Char := '-'

/-- Modelled from the spec: the caret character ending a diagnostic marker
line (`TextSymbol.CARET` of the missing `src/enums.ts`). -/
def TextSymbol.CARET : Char := '^'

/-- A template for token type pattern matches (`TokenTemplate` of
`src/lexer.ts`).  `regexPattern` is the modelled regex (see the header),
`callback` the optional lexeme transformer. -/
structure TokenTemplate (α : Type) where
  tokenType : String
  regexPattern : List Char → Option Nat
  callback : Option (List Char → α)

/-- The mutable fields of a `Lexer` instance (`src/lexer.ts` lines 48-54).
The `tokenType` constructor argument of the TS class only chooses the token
class to instantiate and has no observable content here. -/
structure Lexer (α : Type) where
  templates : List (TokenTemplate α)
  tokens : List (IToken α)
  _start : Nat
  _line : Nat
  _column : Nat

/-- A freshly constructed lexer: empty rule table, zeroed scan state. -/
def Lexer.init {α : Type} : Lexer α :=
  ⟨[], [], 0, 0, 0⟩

/-- `Lexer.addRule`: push a new template and return the same instance. -/
def Lexer.addRule {α : Type} (lx : Lexer α) (tokenType : String)
    (regexPattern : List Char → Option Nat) (callback : Option (List Char → α)) :
    Lexer α :=
  { lx with templates := lx.templates ++ [⟨tokenType, regexPattern, callback⟩] }

/-- One character of the position-adjustment loop of `Lexer.match`
(lines 155-162): a newline increments the line and resets the column,
anything else increments the column. -/
def scanChar (lc : Nat × Nat) (c : Char) : Nat × Nat :=
  if c = TextSymbol.NEWLINE then (lc.1 + 1, 0) else (lc.1, lc.2 + 1)

/-- The full position-adjustment loop of `Lexer.match` over a lexeme. -/
def scanLexeme (line column : Nat) (lexeme : List Char) : Nat × Nat :=
  lexeme.foldl scanChar (line, column)

/-- `Lexer.match` (lines 140-176): try the template's regex against the
text sliced at the current start; on a prefix match build the candidate
token (positions scanned on local copies of line/column) and apply the
callback to fill `value`. -/
def Lexer.matchTemplate {α : Type} (lx : Lexer α) (template : TokenTemplate α)
    (text : List Char) : Option (IToken α) :=
  match template.regexPattern (text.drop lx._start) with
  | none => none
  | some n =>
    let lexeme := (text.drop lx._start).take n
    let endPos := lx._start + lexeme.length
    let lc := scanLexeme lx._line lx._column lexeme
    some { tokenType := template.tokenType
           lexeme := lexeme
           start := lx._start
           endPos := endPos
           line := lc.1
           column := lc.2
           value := template.callback.map (fun f => f lexeme) }

/-- `Lexer.match` written exactly as the source method executes: every
statement only reads the instance (`this._line`, `this._column`,
`this._start`, `this.start`) and the instance is returned untouched.  The
state component makes the frame behaviour of the method visible. -/
def Lexer.matchRun {α : Type} (lx : Lexer α) (template : TokenTemplate α)
    (text : List Char) : Option (IToken α) × Lexer α :=
  let line := lx._line
  let column := lx._column
  match template.regexPattern (text.drop lx._start) with
  | none => (none, lx)
  | some n =>
    let lexeme := (text.drop lx._start).take n
    let endPos := lx._start + lexeme.length
    let lc := scanLexeme line column lexeme
    (some { tokenType := template.tokenType
            lexeme := lexeme
            start := lx._start
            endPos := endPos
            line := lc.1
            column := lc.2
            value := template.callback.map (fun f => f lexeme) }, lx)

/-- `Lexer.best` (lines 189-191): keep the current best on ties or when it
is at least as long, otherwise take the other token. -/
def Lexer.best {α : Type} (best other : IToken α) : IToken α :=
  if other.length ≤ best.length then best else other

/-- One iteration of the inner `for (let template of this.templates)` loop
of `tokenize` (lines 106-116): a non-matching template keeps the
accumulator, the first match seeds it, later matches go through `best`. -/
def Lexer.bestStep {α : Type} (lx : Lexer α) (text : List Char)
    (acc : Option (IToken α)) (template : TokenTemplate α) : Option (IToken α) :=
  match lx.matchTemplate template text with
  | none => acc
  | some token =>
    match acc with
    | none => some token
    | some b => some (Lexer.best b token)

/-- The whole inner template loop of `tokenize`: fold `bestStep` over the
registered templates in registration order. -/
def Lexer.findBest {α : Type} (lx : Lexer α) (text : List Char) :
    Option (IToken α) :=
  lx.templates.foldl (lx.bestStep text) none

/-- The lexical error value (`src/errors.ts`).  Only the three stored
fields are modelled; the preformatted display message is derived from
them. -/
structure UnexpectedCharacterError where
  excerpt : List Char
  line : Nat
  column : Nat
  deriving Repr, DecidableEq

/-- The `UnexpectedCharacterError` constructor.  TypeScript assigns
parameter properties immediately after the `super(errMsg)` call, which is
the last statement of this constructor, so the reassignment `column = 1`
for non-positive columns is visible in the stored `column` field. -/
def mkUnexpectedCharacterError (excerpt : List Char) (line column : Nat) :
    UnexpectedCharacterError :=
  ⟨excerpt, line, if column ≤ 0 then 1 else column⟩

/-- `Lexer.accept` (lines 199-208): push the token, reconcile the column
tracker (reset to 0 on a line change, otherwise add the consumed width),
then advance the start offset and the line tracker. -/
def Lexer.accept {α : Type} (lx : Lexer α) (token : IToken α) : Lexer α :=
  { lx with
    tokens := lx.tokens ++ [token]
    _column := if token.line ≠ lx._line then 0
               else lx._column + (token.endPos - token.start)
    _start := token.endPos
    _line := token.line }

/-- The `while (this.start < text.length)` loop of `tokenize`
(lines 104-125), with explicit fuel.  When no template matches, the thrown
`UnexpectedCharacterError` is built from the line of the text split on
newline and the current line/column trackers; it is paired with the
instance state at the moment of the throw. -/
def Lexer.tokenizeLoop {α : Type} (text : List Char) :
    Nat → Lexer α → Option (Except (UnexpectedCharacterError × Lexer α) (Lexer α))
  | 0, lx =>
    if lx._start < text.length then none else some (Except.ok lx)
  | fuel + 1, lx =>
    if lx._start < text.length then
      match lx.findBest text with
      | none =>
        some (Except.error
          (mkUnexpectedCharacterError
            ((text.splitOn TextSymbol.NEWLINE).getD lx._line [])
            lx._line lx._column, lx))
      | some best => Lexer.tokenizeLoop text fuel (lx.accept best)
    else some (Except.ok lx)

/-- `Lexer.tokenize` (lines 97-127) as a state transformer: reset the
token list and the scan trackers, run the loop, and on success return the
token list with the filtered categories removed (the instance keeps the
unfiltered list).  The paired state is the instance state after the call
(or at the throw). -/
def Lexer.tokenizeRun {α : Type} (lx : Lexer α) (text : List Char)
    (filterTypes : List String) (fuel : Nat) :
    Option (Except UnexpectedCharacterError (List (IToken α)) × Lexer α) :=
  match Lexer.tokenizeLoop text fuel
      { lx with tokens := [], _start := 0, _column := 0, _line := 0 } with
  | none => none
  | some (Except.error (e, lxe)) => some (Except.error e, lxe)
  | some (Except.ok lx1) =>
    some (Except.ok (lx1.tokens.filter (fun x => !(filterTypes.contains x.tokenType))), lx1)

/-- The value returned (or error thrown) by `Lexer.tokenize`. -/
def Lexer.tokenize {α : Type} (lx : Lexer α) (text : List Char)
    (filterTypes : List String) (fuel : Nat) :
    Option (Except UnexpectedCharacterError (List (IToken α))) :=
  (lx.tokenizeRun text filterTypes fuel).map Prod.fst

/-- Concatenation of the lexemes of a token sequence. -/
def lexemesJoined {α : Type} (ts : List (IToken α)) : List Char :=
  (ts.map (fun t => t.lexeme)).flatten

/-- The rule-set side condition of the spec: no registered rule can
produce a zero-width match. -/
def NoZeroWidth {α : Type} (templates : List (TokenTemplate α)) : Prop :=
  ∀ tpl ∈ templates, ∀ s, tpl.regexPattern s ≠ some 0

/-- Number of characters strictly after the last newline of a string, or
`none` when the string has no newline. -/
def tailAfterNL : List Char → Option Nat
  | [] => none
  | c :: rest =>
    match tailAfterNL rest with
    | some k => some k
    | none => if c = TextSymbol.NEWLINE then some rest.length else none

/-- Count of the (non-newline) characters after the last newline of a
string; the whole length when there is no newline. -/
def charsAfterLastNewline (s : List Char) : Nat :=
  match tailAfterNL s with
  | some k => k
  | none => s.length

/-- The tokens of the list occupy the text contiguously from offset `a`
to offset `b`: each token starts where its predecessor ended and its
`endPos` exceeds its `start` by its lexeme length. -/
def chainFrom {α : Type} : Nat → List (IToken α) → Nat → Prop
  | a, [], b => a = b
  | a, t :: ts, b =>
    t.start = a ∧ t.endPos = a + t.lexeme.length ∧ chainFrom t.endPos ts b

/-- The line/column fields of the listed tokens are obtained by scanning
each lexeme from the running trackers, with the tracker reconciliation of
`Lexer.accept` between tokens; `line1`/`column1` are the trackers after
the last token. -/
def tracksTo {α : Type} : Nat → Nat → List (IToken α) → Nat → Nat → Prop
  | line, column, [], line1, column1 => line = line1 ∧ column = column1
  | line, column, t :: ts, line1, column1 =>
    (t.line, t.column) = scanLexeme line column t.lexeme ∧
    tracksTo t.line (if t.line ≠ line then 0 else column + (t.endPos - t.start))
      ts line1 column1

/-- The scan-state invariant of the `tokenize` loop. -/
def LexInv {α : Type} (text : List Char) (lx : Lexer α) : Prop :=
  chainFrom 0 lx.tokens lx._start ∧
  lx._start ≤ text.length ∧
  lexemesJoined lx.tokens = text.take lx._start ∧
  lx._line = (text.take lx._start).count TextSymbol.NEWLINE ∧
  tracksTo 0 0 lx.tokens lx._line lx._column ∧
  (∀ t ∈ lx.tokens, t.line = (text.take t.endPos).count TextSymbol.NEWLINE)

/-- Modelled from the spec: the cursor state of the missing
`src/parser.base.ts` (`ParserBase`), in its string specialization
`src/parser.ts`: the owned token sequence, the position index, the
accumulated soft-error messages, and the original source text used for
diagnostic excerpts. -/
structure Parser (α : Type) where
  tokens : List (IToken α)
  currentPosition : Nat
  errors : List (List Char)
  source : List Char

/-- Modelled from the spec: `ParserBase.lookAround(nodes)` returns the
token at `position + nodes`, or none when that index is negative or not
less than the token count. -/
def Parser.lookAround {α : Type} (p : Parser α) (nodes : Int) :
    Option (IToken α) :=
  let position : Int := (p.currentPosition : Int) + nodes
  if position < 0 ∨ (p.tokens.length : Int) ≤ position then none
  else some (p.tokens.getD position.toNat default)

/-- Modelled from the spec: `ParserBase.current()` is `lookAround(0)`. -/
def Parser.current {α : Type} (p : Parser α) : Option (IToken α) :=
  p.lookAround 0

/-- Modelled from the spec: `ParserBase.advance()` returns the token at
the current position and increments the position by one (undefined at
end-of-input, here totalized with a default token). -/
def Parser.advance {α : Type} (p : Parser α) : IToken α × Parser α :=
  (p.tokens.getD p.currentPosition default,
   { p with currentPosition := p.currentPosition + 1 })

/-- `Parser.check` (`src/parser.ts` lines 57-59): the current token
exists and its category equals the identifier. -/
def Parser.check {α : Type} (p : Parser α) (identifier : String) : Bool :=
  match p.current with
  | some t => t.tokenType == identifier
  | none => false

/-- `Parser.makeErrorMsg` (`src/parser.ts` lines 33-55): locate the token
before the current position (line 0 / column 0 at position 0), build the
marker line, select the excerpt (the line of the source split on newline,
or the whole source if it has no newline), and stack message, excerpt and
marker.  The out-of-range token access of the source is totalized with
the default token. -/
def Parser.makeErrorMsg {α : Type} (p : Parser α) (errorMsg : List Char) :
    List Char :=
  let tLine := if p.currentPosition ≠ 0 then
      (p.tokens.getD (p.currentPosition - 1) default).line else 0
  let tCol := if p.currentPosition ≠ 0 then
      (p.tokens.getD (p.currentPosition - 1) default).column else 0
  let arrow := List.replicate tCol TextSymbol.MINUS ++ [TextSymbol.CARET]
  let excerpt := if p.source.contains TextSymbol.NEWLINE then
      (p.source.splitOn TextSymbol.NEWLINE).getD tLine []
    else p.source
  let diagram := "Near here (column ".toList ++ (Nat.repr tCol).toList
    ++ " on line ".toList ++ (Nat.repr tLine).toList ++ "):".toList
    ++ "\n\t\t".toList ++ excerpt ++ "\n\t\t".toList ++ arrow
  errorMsg ++ ": \n\t".toList ++ diagram

/-- Modelled from the spec: `ParserBase.consume(category, message)` — on
`check` success behave exactly like `advance()`; on failure append the
message to the soft-error list and raise a hard error carrying the
rendered diagnostic, leaving the position unchanged. -/
def Parser.consume {α : Type} (p : Parser α) (identifier : String)
    (errorMsg : List Char) : Except (List Char) (IToken α) × Parser α :=
  if p.check identifier then
    let r := p.advance
    (Except.ok r.1, r.2)
  else
    (Except.error (p.makeErrorMsg errorMsg),
     { p with errors := p.errors ++ [errorMsg] })

/-- Length of the leading run of lowercase letters of a string. -/
def lowercaseRunLength : List Char → Nat
  | [] => 0
  | c :: rest => if 'a' ≤ c ∧ c ≤ 'z' then lowercaseRunLength rest + 1 else 0

/-- Observable behaviour of the JS regex `[a-z]+` inside `Lexer.match`:
the (greedy) run of lowercase letters at index 0, or no match there. -/
def letterRegex (s : List Char) : Option Nat :=
  if lowercaseRunLength s = 0 then none else some (lowercaseRunLength s)

/-- Observable behaviour of the JS regex `\n` inside `Lexer.match`. -/
def newlineRegex (s : List Char) : Option Nat :=
  if s.take 1 = ['\n'] then some 1 else none

/-- Observable behaviour of the JS regex `if` inside `Lexer.match`. -/
def ifRegex (s : List Char) : Option Nat :=
  if s.take 2 = ['i', 'f'] then some 2 else none

/-- Observable behaviour of the JS regex `a\nb` inside `Lexer.match`. -/
def abLineRegex (s : List Char) : Option Nat :=
  if s.take 3 = ['a', '\n', 'b'] then some 3 else none

/-- Observable behaviour of the JS regex `c` inside `Lexer.match`. -/
def cRegex (s : List Char) : Option Nat :=
  if s.take 1 = ['c'] then some 1 else none

/-- Observable behaviour of the JS regex ` ` (one space). -/
def spaceRegex (s : List Char) : Option Nat :=
  if s.take 1 = [' '] then some 1 else none

/-- A lexer with the single rule `LETTER` = `[a-z]+` (the ruleset of the
spec's running error example). -/
def letterLexer : Lexer Unit :=
  (Lexer.init : Lexer Unit).addRule "LETTER" letterRegex none

/-- A lexer registering `SHORT` = `if` before `LONG` = `[a-z]+`. -/
def shortLongLexer : Lexer Unit :=
  ((Lexer.init : Lexer Unit).addRule "SHORT" ifRegex none).addRule
    "LONG" letterRegex none

/-- A lexer with rules `WORD` = `[a-z]+` and `NEWLINE` = `\n`. -/
def wordNlLexer : Lexer Unit :=
  ((Lexer.init : Lexer Unit).addRule "WORD" letterRegex none).addRule
    "NEWLINE" newlineRegex none

/-- A lexer with rules `WORD` = `[a-z]+` and `SPACE` = ` `. -/
def wordSpaceLexer : Lexer Unit :=
  ((Lexer.init : Lexer Unit).addRule "WORD" letterRegex none).addRule
    "SPACE" spaceRegex none

/-- A lexer with rules `AB` = `a\nb` and `C` = `c`: its first rule can
match a lexeme whose last newline is followed by more characters. -/
def cexLexer : Lexer Unit :=
  ((Lexer.init : Lexer Unit).addRule "AB" abLineRegex none).addRule
    "C" cRegex none

/-- A cursor holding the single token `if`, positioned at 0. -/
def sampleParser : Parser Unit :=
  ⟨[⟨"KEYWORD", ['i', 'f'], 0, 2, 0, 2, none⟩], 0, [], ['i', 'f']⟩

/-- The first token `cexLexer` produces on `"a\nbc"`. -/
def cexTok0 : IToken Unit := ⟨"AB", ['a', '\n', 'b'], 0, 3, 1, 1, none⟩

/-- The second token `cexLexer` produces on `"a\nbc"`. -/
def cexTok1 : IToken Unit := ⟨"C", ['c'], 3, 4, 1, 1, none⟩

/-- The tokens `wordNlLexer` produces on `"foo\nbar"`. -/
def fooNlBarTokens : List (IToken Unit) :=
  [⟨"WORD", ['f', 'o', 'o'], 0, 3, 0, 3, none⟩,
   ⟨"NEWLINE", ['\n'], 3, 4, 1, 0, none⟩,
   ⟨"WORD", ['b', 'a', 'r'], 4, 7, 1, 3, none⟩]

/-- The tokens `wordSpaceLexer` produces on `"ab cd"`. -/
def abSpaceCdTokens : List (IToken Unit) :=
  [⟨"WORD", ['a', 'b'], 0, 2, 0, 2, none⟩,
   ⟨"SPACE", [' '], 2, 3, 0, 3, none⟩,
   ⟨"WORD", ['c', 'd'], 3, 5, 0, 5, none⟩]

/-- The token `letterLexer` produces on `"a"`. -/
def tokA : IToken Unit := ⟨"LETTER", ['a'], 0, 1, 0, 1, none⟩

/-- The instance state of `letterLexer` after tokenizing `"a"`. -/
def letterLexerAfterA : Lexer Unit := ⟨letterLexer.templates, [tokA], 1, 0, 1⟩

/-- A lexer with the templates of `letterLexer` but stale scan state from
some earlier run. -/
def dirtyLetterLexer : Lexer Unit := ⟨letterLexer.templates, [tokA], 5, 2, 7⟩

/-- The token `shortLongLexer` produces on `"iffy"`. -/
def iffyTok : IToken Unit := ⟨"LONG", ['i', 'f', 'f', 'y'], 0, 4, 0, 4, none⟩

/-- The accumulator invariant of the template fold: for the processed
prefix, `none` means no processed template matched, and `some b` means `b`
is the match of the earliest processed template of maximal match length. -/
def BestOf {α : Type} (lx : Lexer α) (text : List Char)
    (processed : List (TokenTemplate α)) : Option (IToken α) → Prop
  | none => ∀ tpl ∈ processed, lx.matchTemplate tpl text = none
  | some b =>
    (∃ pre tpl post, processed = pre ++ tpl :: post ∧
      lx.matchTemplate tpl text = some b ∧
      (∀ tpl1 ∈ pre, ∀ tok1, lx.matchTemplate tpl1 text = some tok1 →
        tok1.length < b.length)) ∧
    (∀ tpl1 ∈ processed, ∀ tok1, lx.matchTemplate tpl1 text = some tok1 →
      tok1.length ≤ b.length)

/-! ### Lemmas about the scanning primitives -/

lemma scanLexeme_cons (line column : Nat) (c : Char) (rest : List Char) :
    scanLexeme line column (c :: rest) =
      scanLexeme (scanChar (line, column) c).1 (scanChar (line, column) c).2 rest :=
  rfl

lemma scanLexeme_fst (lexeme : List Char) : ∀ line column : Nat,
    (scanLexeme line column lexeme).1 = line + lexeme.count TextSymbol.NEWLINE := by
  induction lexeme with
  | nil => intro l c; simp [scanLexeme]
  | cons ch rest ih =>
    intro l c
    rw [scanLexeme_cons, ih]
    by_cases h : ch = TextSymbol.NEWLINE
    · simp [scanChar, h, List.count_cons]
      omega
    · simp [scanChar, h, List.count_cons]

lemma scanLexeme_snd (lexeme : List Char) : ∀ line column : Nat,
    (scanLexeme line column lexeme).2 =
      match tailAfterNL lexeme with
      | some k => k
      | none => column + lexeme.length := by
  induction lexeme with
  | nil => intro l c; simp [scanLexeme, tailAfterNL]
  | cons ch rest ih =>
    intro l c
    rw [scanLexeme_cons, ih]
    by_cases h : ch = TextSymbol.NEWLINE
    · cases htail : tailAfterNL rest with
      | some k => simp [scanChar, tailAfterNL, h, htail]
      | none => simp [scanChar, tailAfterNL, h, htail]
    · cases htail : tailAfterNL rest with
      | some k => simp [scanChar, tailAfterNL, h, htail]
      | none =>
        simp [scanChar, tailAfterNL, h, htail, Nat.add_assoc, Nat.add_comm,
          Nat.add_left_comm]

lemma scanLexeme_snd_line_free (lexeme : List Char) (line line1 column : Nat) :
    (scanLexeme line column lexeme).2 = (scanLexeme line1 column lexeme).2 := by
  rw [scanLexeme_snd, scanLexeme_snd]

lemma lexemesJoined_append {α : Type} (ts : List (IToken α)) (t : IToken α) :
    lexemesJoined (ts ++ [t]) = lexemesJoined ts ++ t.lexeme := by
  simp [lexemesJoined]

lemma take_length_take {β : Type} (l : List β) (n : Nat) :
    l.take (l.take n).length = l.take n := by
  induction l generalizing n with
  | nil => simp
  | cons a l ih =>
    cases n with
    | zero => simp
    | succ n => simp [ih n]

lemma getD_mem {β : Type} {l : List β} {n : Nat} (d : β) (h : n < l.length) :
    l.getD n d ∈ l := by
  induction l generalizing n with
  | nil => simp at h
  | cons a l ih =>
    cases n with
    | zero => simp
    | succ n =>
      simp only [List.getD_cons_succ]
      exact List.mem_cons_of_mem a (ih (by simpa using h))

/-! ### Lemmas about `Lexer.match` and the best-candidate selection -/

lemma matchTemplate_spec {α : Type} {lx : Lexer α} {tpl : TokenTemplate α}
    {text : List Char} {tok : IToken α}
    (h : lx.matchTemplate tpl text = some tok) :
    tok.tokenType = tpl.tokenType ∧
    tok.start = lx._start ∧
    tok.endPos = lx._start + tok.lexeme.length ∧
    (∃ n, tpl.regexPattern (text.drop lx._start) = some n ∧
      tok.lexeme = (text.drop lx._start).take n) ∧
    (tok.line, tok.column) = scanLexeme lx._line lx._column tok.lexeme := by
  cases hm : tpl.regexPattern (text.drop lx._start) with
  | none => simp [Lexer.matchTemplate, hm] at h
  | some n =>
    simp only [Lexer.matchTemplate, hm, Option.some_inj] at h
    subst h
    exact ⟨rfl, rfl, rfl, ⟨n, rfl, rfl⟩, rfl⟩

lemma foldl_bestStep_origin {α : Type} (lx : Lexer α) (text : List Char) :
    ∀ (l : List (TokenTemplate α)) (acc : Option (IToken α)) (tok : IToken α),
      l.foldl (lx.bestStep text) acc = some tok →
      acc = some tok ∨ ∃ tpl ∈ l, lx.matchTemplate tpl text = some tok := by
  intro l
  induction l with
  | nil => intro acc tok h; exact Or.inl h
  | cons t l ih =>
    intro acc tok h
    rw [List.foldl_cons] at h
    rcases ih _ _ h with h1 | ⟨tpl, hmem, hmatch⟩
    · unfold Lexer.bestStep at h1
      cases hm : lx.matchTemplate t text with
      | none => rw [hm] at h1; exact Or.inl h1
      | some token =>
        rw [hm] at h1
        cases acc with
        | none =>
          refine Or.inr ⟨t, List.mem_cons_self t l, ?_⟩
          rw [hm]; exact h1
        | some b =>
          simp only [Option.some_inj] at h1
          unfold Lexer.best at h1
          by_cases hle : token.length ≤ b.length
          · rw [if_pos hle] at h1; exact Or.inl (by rw [h1])
          · rw [if_neg hle] at h1
            refine Or.inr ⟨t, List.mem_cons_self t l, ?_⟩
            rw [hm, h1]
    · exact Or.inr ⟨tpl, List.mem_cons_of_mem t hmem, hmatch⟩

lemma findBest_mem {α : Type} {lx : Lexer α} {text : List Char} {tok : IToken α}
    (h : lx.findBest text = some tok) :
    ∃ tpl ∈ lx.templates, lx.matchTemplate tpl text = some tok := by
  rcases foldl_bestStep_origin lx text lx.templates none tok h with h1 | h2
  · exact absurd h1 (by simp)
  · exact h2

lemma bestStep_bestOf {α : Type} {lx : Lexer α} {text : List Char}
    {processed : List (TokenTemplate α)} {acc : Option (IToken α)}
    (hacc : BestOf lx text processed acc) (t : TokenTemplate α) :
    BestOf lx text (processed ++ [t]) (lx.bestStep text acc t) := by
  unfold Lexer.bestStep
  cases hm : lx.matchTemplate t text with
  | none =>
    cases acc with
    | none =>
      intro tpl hmem
      rcases List.mem_append.mp hmem with h1 | h2
      · exact hacc tpl h1
      · rw [List.mem_singleton.mp h2]; exact hm
    | some b =>
      obtain ⟨⟨pre, tpl0, post, hsplit, hmatch, hlt⟩, hle⟩ := hacc
      refine ⟨⟨pre, tpl0, post ++ [t], ?_, hmatch, hlt⟩, ?_⟩
      · rw [hsplit]; simp
      · intro tpl1 hmem tok1 hm1
        rcases List.mem_append.mp hmem with h1 | h2
        · exact hle tpl1 h1 tok1 hm1
        · rw [List.mem_singleton.mp h2] at hm1
          rw [hm] at hm1
          exact absurd hm1 (by simp)
  | some token =>
    cases acc with
    | none =>
      refine ⟨⟨processed, t, [], rfl, hm, ?_⟩, ?_⟩
      · intro tpl1 h1 tok1 hm1
        rw [hacc tpl1 h1] at hm1
        exact absurd hm1 (by simp)
      · intro tpl1 hmem tok1 hm1
        rcases List.mem_append.mp hmem with h1 | h2
        · rw [hacc tpl1 h1] at hm1
          exact absurd hm1 (by simp)
        · rw [List.mem_singleton.mp h2] at hm1
          rw [hm] at hm1
          rw [← Option.some_inj.mp hm1]
    | some b =>
      obtain ⟨⟨pre, tpl0, post, hsplit, hmatch, hlt⟩, hle⟩ := hacc
      show BestOf lx text (processed ++ [t]) (some (Lexer.best b token))
      unfold Lexer.best
      by_cases hcmp : token.length ≤ b.length
      · rw [if_pos hcmp]
        refine ⟨⟨pre, tpl0, post ++ [t], ?_, hmatch, hlt⟩, ?_⟩
        · rw [hsplit]; simp
        · intro tpl1 hmem tok1 hm1
          rcases List.mem_append.mp hmem with h1 | h2
          · exact hle tpl1 h1 tok1 hm1
          · rw [List.mem_singleton.mp h2] at hm1
            rw [hm] at hm1
            rw [← Option.some_inj.mp hm1]
            exact hcmp
      · rw [if_neg hcmp]
        refine ⟨⟨processed, t, [], rfl, hm, ?_⟩, ?_⟩
        · intro tpl1 h1 tok1 hm1
          exact Nat.lt_of_le_of_lt (hle tpl1 h1 tok1 hm1) (Nat.lt_of_not_le hcmp)
        · intro tpl1 hmem tok1 hm1
          rcases List.mem_append.mp hmem with h1 | h2
          · exact Nat.le_of_lt
              (Nat.lt_of_le_of_lt (hle tpl1 h1 tok1 hm1) (Nat.lt_of_not_le hcmp))
          · rw [List.mem_singleton.mp h2] at hm1
            rw [hm] at hm1
            rw [← Option.some_inj.mp hm1]

lemma foldl_bestStep_bestOf {α : Type} (lx : Lexer α) (text : List Char) :
    ∀ (l processed : List (TokenTemplate α)) (acc : Option (IToken α)),
      BestOf lx text processed acc →
      BestOf lx text (processed ++ l) (l.foldl (lx.bestStep text) acc) := by
  intro l
  induction l with
  | nil =>
    intro processed acc h
    simpa using h
  | cons t l ih =>
    intro processed acc h
    rw [List.foldl_cons]
    have h2 := ih (processed ++ [t]) _ (bestStep_bestOf h t)
    simpa [List.append_assoc] using h2

lemma findBest_bestOf {α : Type} (lx : Lexer α) (text : List Char) :
    BestOf lx text lx.templates (lx.findBest text) := by
  have h0 : BestOf lx text [] (none : Option (IToken α)) := by
    intro tpl h
    exact absurd h (List.not_mem_nil tpl)
  have h := foldl_bestStep_bestOf lx text lx.templates [] none h0
  simpa using h

/-! ### Lemmas about `chainFrom` and `tracksTo` -/

lemma chainFrom_append {α : Type} {ts : List (IToken α)} {a b : Nat}
    {t : IToken α} (h : chainFrom a ts b) (h1 : t.start = b)
    (h2 : t.endPos = b + t.lexeme.length) :
    chainFrom a (ts ++ [t]) t.endPos := by
  induction ts generalizing a with
  | nil =>
    have hb : a = b := h
    subst hb
    exact ⟨h1, h2, rfl⟩
  | cons u ts ih => exact ⟨h.1, h.2.1, ih h.2.2⟩

lemma chainFrom_width {α : Type} :
    ∀ {ts : List (IToken α)} {a b : Nat}, chainFrom a ts b →
      ∀ t ∈ ts, t.endPos = t.start + t.lexeme.length := by
  intro ts
  induction ts with
  | nil => intro a b _ t ht; exact absurd ht (List.not_mem_nil t)
  | cons u ts ih =>
    intro a b h t ht
    rcases List.mem_cons.mp ht with h1 | h2
    · subst h1; rw [h.2.1, h.1]
    · exact ih h.2.2 t h2

lemma chainFrom_head {α : Type} {ts : List (IToken α)} {a b : Nat}
    (h : chainFrom a ts b) : ∀ t, ts.head? = some t → t.start = a := by
  intro t ht
  cases ts with
  | nil => simp at ht
  | cons u ts =>
    simp only [List.head?_cons, Option.some_inj] at ht
    subst ht
    exact h.1

lemma chainFrom_consec {α : Type} :
    ∀ {ts : List (IToken α)} {a b : Nat}, chainFrom a ts b →
      ∀ i, i + 1 < ts.length →
        (ts.getD (i + 1) default).start = (ts.getD i default).endPos := by
  intro ts
  induction ts with
  | nil => intro a b _ i hi; simp at hi
  | cons u ts ih =>
    intro a b h i hi
    cases i with
    | zero =>
      cases ts with
      | nil => simp at hi
      | cons v ts =>
        simp only [List.getD_cons_succ, List.getD_cons_zero]
        rw [h.2.2.1, h.2.1]
    | succ i =>
      simp only [List.getD_cons_succ]
      exact ih h.2.2 i (by simpa using hi)

lemma tracksTo_append {α : Type} {ts : List (IToken α)} {l0 c0 l1 c1 : Nat}
    {t : IToken α} (h : tracksTo l0 c0 ts l1 c1)
    (ht : (t.line, t.column) = scanLexeme l1 c1 t.lexeme) :
    tracksTo l0 c0 (ts ++ [t]) t.line
      (if t.line ≠ l1 then 0 else c1 + (t.endPos - t.start)) := by
  induction ts generalizing l0 c0 with
  | nil =>
    obtain ⟨hl, hc⟩ := h
    subst hl; subst hc
    exact ⟨ht, rfl, rfl⟩
  | cons u ts ih => exact ⟨h.1, ih h.2⟩

lemma tracksTo_adjacent {α : Type} :
    ∀ {ts : List (IToken α)} {l0 c0 l1 c1 : Nat}, tracksTo l0 c0 ts l1 c1 →
      ∀ i, i + 1 < ts.length →
        TextSymbol.NEWLINE ∈ (ts.getD i default).lexeme →
        ((ts.getD (i + 1) default).line, (ts.getD (i + 1) default).column) =
          scanLexeme (ts.getD i default).line 0 (ts.getD (i + 1) default).lexeme := by
  intro ts
  induction ts with
  | nil => intro l0 c0 l1 c1 _ i hi; simp at hi
  | cons u ts ih =>
    intro l0 c0 l1 c1 h i hi hnl
    cases i with
    | zero =>
      cases ts with
      | nil => simp at hi
      | cons v ts =>
        simp only [List.getD_cons_succ, List.getD_cons_zero] at hnl ⊢
        have hline : u.line ≠ l0 := by
          have h1 : u.line = l0 + u.lexeme.count TextSymbol.NEWLINE := by
            have := congrArg Prod.fst h.1
            simpa [scanLexeme_fst] using this
          have h2 : 0 < u.lexeme.count TextSymbol.NEWLINE :=
            List.count_pos_iff.mpr hnl
          omega
        have h3 := h.2
        rw [if_pos hline] at h3
        exact h3.1
    | succ i =>
      simp only [List.getD_cons_succ] at hnl ⊢
      exact ih h.2 i (by simpa using hi) hnl

/-! ### The tokenize loop invariant -/

lemma accept_templates {α : Type} (lx : Lexer α) (tok : IToken α) :
    (lx.accept tok).templates = lx.templates := rfl

lemma take_append_lexeme {text : List Char} {s n : Nat} :
    text.take (s + ((text.drop s).take n).length) =
      text.take s ++ (text.drop s).take n := by
  rw [List.take_add]
  congr 1
  exact take_length_take (text.drop s) n

lemma accept_LexInv {α : Type} {text : List Char} {lx : Lexer α}
    {tok : IToken α} (hinv : LexInv text lx)
    (hfb : lx.findBest text = some tok) : LexInv text (lx.accept tok) := by
  obtain ⟨hchain, hle, hjoin, hline, htracks, htok⟩ := hinv
  obtain ⟨tpl, hmem, hmatch⟩ := findBest_mem hfb
  obtain ⟨-, hstart, hend, ⟨n, hpat, hlex⟩, hscan⟩ := matchTemplate_spec hmatch
  have hlen : tok.lexeme.length = min n (text.length - lx._start) := by
    rw [hlex, List.length_take, List.length_drop]
  have htake : text.take tok.endPos = text.take lx._start ++ tok.lexeme := by
    rw [hend, hlex]
    exact take_append_lexeme
  have hlinetok : tok.line = (text.take tok.endPos).count TextSymbol.NEWLINE := by
    have h1 : tok.line = lx._line + tok.lexeme.count TextSymbol.NEWLINE := by
      have := congrArg Prod.fst hscan
      simpa [scanLexeme_fst] using this
    rw [htake, List.count_append, h1, hline]
  refine ⟨?_, ?_, ?_, ?_, ?_, ?_⟩
  · exact chainFrom_append hchain hstart hend
  · show tok.endPos ≤ text.length
    rw [hend]
    omega
  · show lexemesJoined (lx.tokens ++ [tok]) = text.take tok.endPos
    rw [lexemesJoined_append, hjoin, htake]
  · exact hlinetok
  · exact tracksTo_append htracks hscan
  · intro t ht
    rcases List.mem_append.mp ht with h1 | h2
    · exact htok t h1
    · rw [List.mem_singleton.mp h2]
      exact hlinetok

lemma accept_progress {α : Type} {text : List Char} {lx : Lexer α}
    {tok : IToken α} (hnz : NoZeroWidth lx.templates)
    (hlt : lx._start < text.length) (hfb : lx.findBest text = some tok) :
    lx._start < (lx.accept tok)._start := by
  obtain ⟨tpl, hmem, hmatch⟩ := findBest_mem hfb
  obtain ⟨-, -, hend, ⟨n, hpat, hlex⟩, -⟩ := matchTemplate_spec hmatch
  have hn : n ≠ 0 := fun h0 => hnz tpl hmem _ (h0 ▸ hpat)
  have hlen : tok.lexeme.length = min n (text.length - lx._start) := by
    rw [hlex, List.length_take, List.length_drop]
  show lx._start < tok.endPos
  rw [hend]
  omega

lemma tokenizeLoop_spec {α : Type} (text : List Char) :
    ∀ (fuel : Nat) (lx : Lexer α)
      (r : Except (UnexpectedCharacterError × Lexer α) (Lexer α)),
      LexInv text lx →
      Lexer.tokenizeLoop text fuel lx = some r →
      (∀ lx1, r = Except.ok lx1 →
        LexInv text lx1 ∧ text.length ≤ lx1._start ∧
        lx1.templates = lx.templates) ∧
      (∀ e lxe, r = Except.error (e, lxe) →
        LexInv text lxe ∧ lxe.templates = lx.templates ∧
        lxe._start < text.length ∧ lxe.findBest text = none ∧
        e = mkUnexpectedCharacterError
          ((text.splitOn TextSymbol.NEWLINE).getD lxe._line [])
          lxe._line lxe._column) := by
  intro fuel
  induction fuel with
  | zero =>
    intro lx r hinv h
    by_cases hlt : lx._start < text.length
    · simp [Lexer.tokenizeLoop, hlt] at h
    · simp only [Lexer.tokenizeLoop, if_neg hlt, Option.some_inj] at h
      subst h
      refine ⟨?_, ?_⟩
      · intro lx1 h1
        cases h1
        exact ⟨hinv, Nat.le_of_not_lt hlt, rfl⟩
      · intro e lxe h1
        cases h1
  | succ fuel ih =>
    intro lx r hinv h
    by_cases hlt : lx._start < text.length
    · rw [show Lexer.tokenizeLoop text (fuel + 1) lx =
          (if lx._start < text.length then
            match lx.findBest text with
            | none =>
              some (Except.error
                (mkUnexpectedCharacterError
                  ((text.splitOn TextSymbol.NEWLINE).getD lx._line [])
                  lx._line lx._column, lx))
            | some best => Lexer.tokenizeLoop text fuel (lx.accept best)
          else some (Except.ok lx)) from rfl, if_pos hlt] at h
      cases hfb : lx.findBest text with
      | none =>
        rw [hfb] at h
        simp only [Option.some_inj] at h
        subst h
        refine ⟨?_, ?_⟩
        · intro lx1 h1
          cases h1
        · intro e lxe h1
          have he := (Except.error.injEq _ _).mp h1
          have h2 : e = mkUnexpectedCharacterError
              ((text.splitOn TextSymbol.NEWLINE).getD lx._line [])
              lx._line lx._column := (Prod.mk.injEq _ _ _ _).mp he.symm |>.1
          have h3 : lxe = lx := (Prod.mk.injEq _ _ _ _).mp he.symm |>.2
          subst h3
          exact ⟨hinv, rfl, hlt, hfb, h2⟩
      | some best =>
        rw [hfb] at h
        have hrec := ih (lx.accept best) r (accept_LexInv hinv hfb) h
        refine ⟨?_, ?_⟩
        · intro lx1 h1
          obtain ⟨ha, hb, hc⟩ := hrec.1 lx1 h1
          exact ⟨ha, hb, hc.trans (accept_templates lx best)⟩
        · intro e lxe h1
          obtain ⟨ha, hb, hc, hd, he⟩ := hrec.2 e lxe h1
          exact ⟨ha, hb.trans (accept_templates lx best), hc, hd, he⟩
    · simp only [Lexer.tokenizeLoop, if_neg hlt, Option.some_inj] at h
      subst h
      refine ⟨?_, ?_⟩
      · intro lx1 h1
        cases h1
        exact ⟨hinv, Nat.le_of_not_lt hlt, rfl⟩
      · intro e lxe h1
        cases h1

lemma tokenizeLoop_total {α : Type} (text : List Char) :
    ∀ (fuel : Nat) (lx : Lexer α), NoZeroWidth lx.templates →
      LexInv text lx → text.length - lx._start ≤ fuel →
      ∃ r, Lexer.tokenizeLoop text fuel lx = some r := by
  intro fuel
  induction fuel with
  | zero =>
    intro lx hnz hinv hfuel
    have hge : ¬ lx._start < text.length := by omega
    exact ⟨Except.ok lx, by simp [Lexer.tokenizeLoop, hge]⟩
  | succ fuel ih =>
    intro lx hnz hinv hfuel
    by_cases hlt : lx._start < text.length
    · cases hfb : lx.findBest text with
      | none =>
        refine ⟨Except.error
          (mkUnexpectedCharacterError
            ((text.splitOn TextSymbol.NEWLINE).getD lx._line [])
            lx._line lx._column, lx), ?_⟩
        simp [Lexer.tokenizeLoop, if_pos hlt, hfb]
      | some best =>
        have hprog := accept_progress hnz hlt hfb
        obtain ⟨r, hr⟩ := ih (lx.accept best) hnz (accept_LexInv hinv hfb)
          (by omega)
        refine ⟨r, ?_⟩
        rw [show Lexer.tokenizeLoop text (fuel + 1) lx =
            (if lx._start < text.length then
              match lx.findBest text with
              | none =>
                some (Except.error
                  (mkUnexpectedCharacterError
                    ((text.splitOn TextSymbol.NEWLINE).getD lx._line [])
                    lx._line lx._column, lx))
              | some best => Lexer.tokenizeLoop text fuel (lx.accept best)
            else some (Except.ok lx)) from rfl, if_pos hlt, hfb]
        exact hr
    · exact ⟨Except.ok lx, by simp [Lexer.tokenizeLoop, hlt]⟩

lemma LexInv_init {α : Type} (text : List Char) (lx : Lexer α) :
    LexInv text
      { lx with tokens := [], _start := 0, _column := 0, _line := 0 } := by
  refine ⟨rfl, Nat.zero_le _, ?_, ?_, ⟨rfl, rfl⟩, ?_⟩
  · simp [lexemesJoined]
  · simp
  · intro t ht
    exact absurd ht (List.not_mem_nil t)

lemma filter_no_types {α : Type} (ts : List (IToken α)) :
    ts.filter (fun x => !(List.contains ([] : List String) x.tokenType)) = ts := by
  simp [List.contains]

lemma tokenize_ok_inv {α : Type} {lx : Lexer α} {text : List Char}
    {filterTypes : List String} {fuel : Nat} {ts : List (IToken α)}
    (h : lx.tokenize text filterTypes fuel = some (Except.ok ts)) :
    ∃ lx1, LexInv text lx1 ∧ text.length ≤ lx1._start ∧
      lx1.templates = lx.templates ∧
      Lexer.tokenizeLoop text fuel
        { lx with tokens := [], _start := 0, _column := 0, _line := 0 } =
        some (Except.ok lx1) ∧
      ts = lx1.tokens.filter (fun x => !(filterTypes.contains x.tokenType)) := by
  unfold Lexer.tokenize Lexer.tokenizeRun at h
  cases hloop : Lexer.tokenizeLoop text fuel
      ({ lx with tokens := [], _start := 0, _column := 0, _line := 0 } : Lexer α) with
  | none => rw [hloop] at h; simp at h
  | some r =>
    rw [hloop] at h
    cases r with
    | error p =>
      obtain ⟨e, lxe⟩ := p
      simp at h
    | ok lx1 =>
      have h3 := Option.some.inj h
      have hts := (Except.ok.injEq _ _).mp h3
      have hspec := tokenizeLoop_spec text fuel _ _ (LexInv_init text lx) hloop
      obtain ⟨ha, hb, hc⟩ := hspec.1 lx1 rfl
      exact ⟨lx1, ha, hb, hc, rfl, hts.symm⟩

lemma tokenize_error_spec {α : Type} {lx : Lexer α} {text : List Char}
    {filterTypes : List String} {fuel : Nat} {e : UnexpectedCharacterError}
    (h : lx.tokenize text filterTypes fuel = some (Except.error e)) :
    ∃ lxe : Lexer α, LexInv text lxe ∧ lxe._start < text.length ∧
      lxe.findBest text = none ∧
      e = mkUnexpectedCharacterError
        ((text.splitOn TextSymbol.NEWLINE).getD lxe._line [])
        lxe._line lxe._column := by
  unfold Lexer.tokenize Lexer.tokenizeRun at h
  cases hloop : Lexer.tokenizeLoop text fuel
      ({ lx with tokens := [], _start := 0, _column := 0, _line := 0 } : Lexer α) with
  | none => rw [hloop] at h; simp at h
  | some r =>
    rw [hloop] at h
    cases r with
    | ok lx1 => simp at h
    | error p =>
      obtain ⟨e1, lxe⟩ := p
      have h3 := Option.some.inj h
      have he := (Except.error.injEq _ _).mp h3
      subst he
      have hspec := tokenizeLoop_spec text fuel _ _ (LexInv_init text lx) hloop
      obtain ⟨ha, hb, hc, hd, hee⟩ := hspec.2 e1 lxe rfl
      exact ⟨lxe, ha, hc, hd, hee⟩

/-! ### C1 -/

lemma letterRegex_ne_zero (s : List Char) : letterRegex s ≠ some 0 := by
  unfold letterRegex
  by_cases h : lowercaseRunLength s = 0
  · simp [h]
  · simp [h]

lemma letterLexer_NoZeroWidth : NoZeroWidth letterLexer.templates := by
  intro tpl hmem s
  have htpl : tpl = ⟨"LETTER", letterRegex, none⟩ := by
    simpa [letterLexer, Lexer.init, Lexer.addRule] using hmem
  rw [htpl]
  exact letterRegex_ne_zero s

/-- C1: for every rule set in which no rule can produce a zero-width match
and every input text, `tokenize` (with no filter categories, and fuel equal
to the text length, which the proof shows is enough — the scan loop
terminates) returns `some` outcome, and that outcome either is a token
sequence whose concatenated lexemes equal the input text exactly, or is a
lexical error; being one `Except` value, it is never both and never
neither.  Empty input exits the loop without iterating, covered by fuel
`0`. -/
theorem tokenize_partitions_or_errors {α : Type} (lx : Lexer α)
    (text : List Char) (hnz : NoZeroWidth lx.templates) :
    ∃ r, lx.tokenize text [] text.length = some r ∧
      ∀ ts, r = Except.ok ts → lexemesJoined ts = text := by
  have hinv := LexInv_init text lx
  have hnz0 : NoZeroWidth
      ({ lx with tokens := [], _start := 0, _column := 0, _line := 0 } :
        Lexer α).templates := hnz
  obtain ⟨r0, hr0⟩ := tokenizeLoop_total text text.length _ hnz0 hinv (by simp)
  have hspec := tokenizeLoop_spec text text.length _ r0 hinv hr0
  unfold Lexer.tokenize Lexer.tokenizeRun
  rw [hr0]
  cases r0 with
  | error p =>
    obtain ⟨e, lxe⟩ := p
    refine ⟨Except.error e, rfl, ?_⟩
    intro ts hts
    cases hts
  | ok lx1 =>
    obtain ⟨ha, hb, hc⟩ := hspec.1 lx1 rfl
    refine ⟨Except.ok lx1.tokens, ?_, ?_⟩
    · show some (Except.ok (lx1.tokens.filter
        (fun x => !(List.contains ([] : List String) x.tokenType)))) = _
      rw [filter_no_types]
    · intro ts hts
      have hts2 : lx1.tokens = ts := (Except.ok.injEq _ _).mp hts
      subst hts2
      have hstart : lx1._start = text.length :=
        Nat.le_antisymm ha.2.1 hb
      have hjoin := ha.2.2.1
      rw [hstart] at hjoin
      rw [hjoin, List.take_length]

/-- Witness for C1: the `LETTER` ruleset on input `"ab"`. -/
theorem tokenize_partitions_or_errors_witness :
    ∃ r, letterLexer.tokenize ['a', 'b'] [] 2 = some r ∧
      ∀ ts, r = Except.ok ts → lexemesJoined ts = ['a', 'b'] :=
  tokenize_partitions_or_errors letterLexer ['a', 'b'] letterLexer_NoZeroWidth

/-! ### C2 -/

/-- C2: whenever the candidate selection of the scan loop settles on a
token (`findBest`), accepting that token is exactly what the `tokenize`
loop does at that position, the winning token is produced by one of the
registered rules, no rule matching at that position yields a longer
lexeme, and every rule registered before the winner either does not match
or matches a strictly shorter lexeme — so on equal maximal lengths the
earliest-registered rule wins. -/
theorem best_rule_selection {α : Type} (lx : Lexer α) (text : List Char)
    (tok : IToken α) (h : lx.findBest text = some tok) :
    (∀ fuel, lx._start < text.length →
      Lexer.tokenizeLoop text (fuel + 1) lx =
        Lexer.tokenizeLoop text fuel (lx.accept tok)) ∧
    ∃ pre tpl post, lx.templates = pre ++ tpl :: post ∧
      lx.matchTemplate tpl text = some tok ∧
      (∀ tpl1 ∈ lx.templates, ∀ tok1,
        lx.matchTemplate tpl1 text = some tok1 → tok1.length ≤ tok.length) ∧
      (∀ tpl1 ∈ pre, ∀ tok1,
        lx.matchTemplate tpl1 text = some tok1 → tok1.length < tok.length) := by
  constructor
  · intro fuel hlt
    simp only [Lexer.tokenizeLoop, if_pos hlt, h]
  · have hb := findBest_bestOf lx text
    rw [h] at hb
    obtain ⟨⟨pre, tpl, post, hsplit, hmatch, hlt⟩, hle⟩ := hb
    exact ⟨pre, tpl, post, hsplit, hmatch, hle, hlt⟩

/-- Witness for C2: on `"iffy"`, with `SHORT` = `if` registered before
`LONG` = `[a-z]+`, the selection yields the longer `LONG` token. -/
theorem best_rule_selection_witness :
    (∀ fuel, shortLongLexer._start < (['i', 'f', 'f', 'y'] : List Char).length →
      Lexer.tokenizeLoop ['i', 'f', 'f', 'y'] (fuel + 1) shortLongLexer =
        Lexer.tokenizeLoop ['i', 'f', 'f', 'y'] fuel
          (shortLongLexer.accept iffyTok)) ∧
    ∃ pre tpl post, shortLongLexer.templates = pre ++ tpl :: post ∧
      shortLongLexer.matchTemplate tpl ['i', 'f', 'f', 'y'] = some iffyTok ∧
      (∀ tpl1 ∈ shortLongLexer.templates, ∀ tok1,
        shortLongLexer.matchTemplate tpl1 ['i', 'f', 'f', 'y'] = some tok1 →
          tok1.length ≤ iffyTok.length) ∧
      (∀ tpl1 ∈ pre, ∀ tok1,
        shortLongLexer.matchTemplate tpl1 ['i', 'f', 'f', 'y'] = some tok1 →
          tok1.length < iffyTok.length) :=
  best_rule_selection shortLongLexer ['i', 'f', 'f', 'y'] iffyTok (by rfl)

/-! ### C4 -/

/-- C4: every token produced by `tokenize` satisfies
`end - start = length (lexeme)`, and in the unfiltered sequence the first
token starts at 0 and each consecutive pair is contiguous:
`T(i+1).start = T(i).end`. -/
theorem token_positions_contiguous {α : Type} (lx : Lexer α)
    (text : List Char) (filterTypes : List String) (fuel : Nat)
    (ts : List (IToken α))
    (h : lx.tokenize text filterTypes fuel = some (Except.ok ts)) :
    (∀ t ∈ ts, t.endPos - t.start = t.lexeme.length) ∧
    (filterTypes = [] →
      (∀ t, ts.head? = some t → t.start = 0) ∧
      ∀ i, i + 1 < ts.length →
        (ts.getD (i + 1) default).start = (ts.getD i default).endPos) := by
  obtain ⟨lx1, hinv, hge, htpl, hloop, hts⟩ := tokenize_ok_inv h
  have hchain := hinv.1
  constructor
  · intro t ht
    have hmem : t ∈ lx1.tokens := by
      rw [hts] at ht
      exact List.mem_of_mem_filter ht
    have hw := chainFrom_width hchain t hmem
    omega
  · intro hnil
    subst hnil
    rw [filter_no_types] at hts
    subst hts
    exact ⟨chainFrom_head hchain, chainFrom_consec hchain⟩

/-- Witness for C4: the word/space ruleset on `"ab cd"`, no filtering. -/
theorem token_positions_contiguous_witness :
    (∀ t ∈ abSpaceCdTokens, t.endPos - t.start = t.lexeme.length) ∧
    (([] : List String) = [] →
      (∀ t, abSpaceCdTokens.head? = some t → t.start = 0) ∧
      ∀ i, i + 1 < abSpaceCdTokens.length →
        (abSpaceCdTokens.getD (i + 1) default).start =
          (abSpaceCdTokens.getD i default).endPos) :=
  token_positions_contiguous wordSpaceLexer ['a', 'b', ' ', 'c', 'd'] [] 5
    abSpaceCdTokens (by rfl)

/-! ### C8 -/

/-- C8: on a successful `tokenize(text, ...filterTypes)` call, the result
is exactly the produced (unfiltered) sequence with the filtered categories
removed: every token whose category is in `filterTypes` is absent, every
other produced token is present, and the relative order is preserved (the
result is a sublist of the produced sequence). -/
theorem filter_preserves_rest {α : Type} (lx : Lexer α) (text : List Char)
    (filterTypes : List String) (fuel : Nat) (ts : List (IToken α))
    (h : lx.tokenize text filterTypes fuel = some (Except.ok ts)) :
    ∃ produced, lx.tokenize text [] fuel = some (Except.ok produced) ∧
      ts = produced.filter (fun t => !(filterTypes.contains t.tokenType)) ∧
      (∀ t ∈ produced, t.tokenType ∈ filterTypes → t ∉ ts) ∧
      (∀ t ∈ produced, t.tokenType ∉ filterTypes → t ∈ ts) ∧
      ts.Sublist produced := by
  obtain ⟨lx1, hinv, hge, htpl, hloop, hts⟩ := tokenize_ok_inv h
  refine ⟨lx1.tokens, ?_, hts, ?_, ?_, ?_⟩
  · unfold Lexer.tokenize Lexer.tokenizeRun
    rw [hloop]
    show some (Except.ok (lx1.tokens.filter
      (fun x => !(List.contains ([] : List String) x.tokenType)))) = _
    rw [filter_no_types]
  · intro t hp hmemf hmemts
    rw [hts] at hmemts
    have hpt := List.of_mem_filter hmemts
    simp only [Bool.not_eq_true'] at hpt
    simp at hpt
    exact hpt hmemf
  · intro t hp hnot
    rw [hts]
    refine List.mem_filter.mpr ⟨hp, ?_⟩
    simp only [Bool.not_eq_true']
    simp [hnot]
  · rw [hts]
    exact List.filter_sublist lx1.tokens

/-- Witness for C8: filtering `SPACE` out of `"ab cd"`. -/
theorem filter_preserves_rest_witness :
    ∃ produced,
      wordSpaceLexer.tokenize ['a', 'b', ' ', 'c', 'd'] [] 5 =
        some (Except.ok produced) ∧
      [⟨"WORD", ['a', 'b'], 0, 2, 0, 2, none⟩,
       ⟨"WORD", ['c', 'd'], 3, 5, 0, 5, none⟩] =
        produced.filter
          (fun t => !(List.contains ["SPACE"] t.tokenType)) ∧
      (∀ t ∈ produced, t.tokenType ∈ ["SPACE"] →
        t ∉ ([⟨"WORD", ['a', 'b'], 0, 2, 0, 2, none⟩,
              ⟨"WORD", ['c', 'd'], 3, 5, 0, 5, none⟩] : List (IToken Unit))) ∧
      (∀ t ∈ produced, t.tokenType ∉ ["SPACE"] →
        t ∈ ([⟨"WORD", ['a', 'b'], 0, 2, 0, 2, none⟩,
              ⟨"WORD", ['c', 'd'], 3, 5, 0, 5, none⟩] : List (IToken Unit))) ∧
      List.Sublist
        [⟨"WORD", ['a', 'b'], 0, 2, 0, 2, none⟩,
         ⟨"WORD", ['c', 'd'], 3, 5, 0, 5, none⟩] produced :=
  filter_preserves_rest wordSpaceLexer ['a', 'b', ' ', 'c', 'd'] ["SPACE"] 5
    [⟨"WORD", ['a', 'b'], 0, 2, 0, 2, none⟩,
     ⟨"WORD", ['c', 'd'], 3, 5, 0, 5, none⟩] (by rfl)

/-! ### C9 -/

lemma tokenize_templates_congr {α : Type} (lx1 lx2 : Lexer α)
    (h : lx1.templates = lx2.templates) (text : List Char)
    (filterTypes : List String) (fuel : Nat) :
    lx1.tokenize text filterTypes fuel = lx2.tokenize text filterTypes fuel := by
  have hreset :
      ({ lx1 with tokens := [], _start := 0, _column := 0, _line := 0 } : Lexer α) =
      { lx2 with tokens := [], _start := 0, _column := 0, _line := 0 } := by
    cases lx1
    cases lx2
    simp_all
  unfold Lexer.tokenize Lexer.tokenizeRun
  rw [hreset]

/-- C9: `tokenize` re-initializes the scan state on entry, so its outcome
depends only on the registered templates; in particular, after any
`tokenize` call (modelled by `tokenizeRun`, which also returns the
instance state the call leaves behind), a second call with the same
arguments returns the same outcome as the first would on any instance
with the same templates — equal token sequences or equal lexical
errors, regardless of earlier calls. -/
theorem tokenize_history_independent {α : Type} :
    (∀ lx1 lx2 : Lexer α, lx1.templates = lx2.templates →
      ∀ (text : List Char) (filterTypes : List String) (fuel : Nat),
        lx1.tokenize text filterTypes fuel =
          lx2.tokenize text filterTypes fuel) ∧
    (∀ (lx : Lexer α) (text : List Char) (filterTypes : List String)
       (fuel : Nat) (r : Except UnexpectedCharacterError (List (IToken α)))
       (lx1 : Lexer α),
      lx.tokenizeRun text filterTypes fuel = some (r, lx1) →
      lx1.templates = lx.templates ∧
      ∀ (text1 : List Char) (filterTypes1 : List String) (fuel1 : Nat),
        lx1.tokenize text1 filterTypes1 fuel1 =
          lx.tokenize text1 filterTypes1 fuel1) := by
  constructor
  · intro lx1 lx2 h text ft fuel
    exact tokenize_templates_congr lx1 lx2 h text ft fuel
  · intro lx text ft fuel r lx1 h
    have htpl : lx1.templates = lx.templates := by
      unfold Lexer.tokenizeRun at h
      cases hloop : Lexer.tokenizeLoop text fuel
          ({ lx with tokens := [], _start := 0, _column := 0, _line := 0 } :
            Lexer α) with
      | none => rw [hloop] at h; cases h
      | some r0 =>
        rw [hloop] at h
        have hspec := tokenizeLoop_spec text fuel _ r0 (LexInv_init text lx) hloop
        cases r0 with
        | error p =>
          obtain ⟨e, lxe⟩ := p
          have h2 := Option.some.inj h
          have hlx : lxe = lx1 := congrArg Prod.snd h2
          subst hlx
          exact (hspec.2 e lxe rfl).2.1
        | ok lxok =>
          have h2 := Option.some.inj h
          have hlx : lxok = lx1 := congrArg Prod.snd h2
          subst hlx
          exact (hspec.1 lxok rfl).2.2
    exact ⟨htpl, fun text1 ft1 fuel1 =>
      tokenize_templates_congr lx1 lx htpl text1 ft1 fuel1⟩

/-- Witness for C9: a stale-state lexer with the `LETTER` templates
tokenizes `"ab"` exactly as the fresh one, and the state left by
tokenizing `"a"` behaves the same on the next call. -/
theorem tokenize_history_independent_witness :
    dirtyLetterLexer.tokenize ['a', 'b'] [] 2 =
      letterLexer.tokenize ['a', 'b'] [] 2 ∧
    (letterLexerAfterA.templates = letterLexer.templates ∧
      ∀ (text1 : List Char) (filterTypes1 : List String) (fuel1 : Nat),
        letterLexerAfterA.tokenize text1 filterTypes1 fuel1 =
          letterLexer.tokenize text1 filterTypes1 fuel1) :=
  ⟨tokenize_history_independent.1 dirtyLetterLexer letterLexer rfl
      ['a', 'b'] [] 2,
   tokenize_history_independent.2 letterLexer ['a'] [] 1
      (Except.ok [tokA]) letterLexerAfterA (by rfl)⟩

/-! ### C10 -/

/-- C10: `Lexer.match` never mutates the lexer: run as the state
transformer it is in the source, it returns the instance unchanged (scan
trackers and accumulated token list included), and its value is the pure
candidate-token computation. -/
theorem match_no_mutation {α : Type} (lx : Lexer α)
    (template : TokenTemplate α) (text : List Char) :
    (lx.matchRun template text).2 = lx ∧
    (lx.matchRun template text).2._start = lx._start ∧
    (lx.matchRun template text).2._line = lx._line ∧
    (lx.matchRun template text).2._column = lx._column ∧
    (lx.matchRun template text).2.tokens = lx.tokens ∧
    (lx.matchRun template text).1 = lx.matchTemplate template text := by
  unfold Lexer.matchRun Lexer.matchTemplate
  cases template.regexPattern (text.drop lx._start) <;> simp

/-! ### C5 -/

/-- C5 (amended): whenever `tokenize` fails because no rule matches, the
raised lexical error carries the current line number, the text of the
current source line (the input split on newline, indexed by the error's
line number), and the current column number clamped below to 1 (the
constructor stores 1 whenever the current column is 0); in particular, on
`"abc123"` with only the LETTER rule `[a-z]+` it raises the error with
excerpt `"abc123"`, line 0, column 3. -/
theorem lexical_error_report_amended {α : Type} (lx : Lexer α)
    (text : List Char) (filterTypes : List String) (fuel : Nat)
    (e : UnexpectedCharacterError)
    (h : lx.tokenize text filterTypes fuel = some (Except.error e)) :
    e.excerpt = (text.splitOn TextSymbol.NEWLINE).getD e.line [] ∧
    1 ≤ e.column ∧
    (∀ (lx1 : Lexer α) (fuel1 : Nat), lx1._start < text.length →
      lx1.findBest text = none →
      Lexer.tokenizeLoop text (fuel1 + 1) lx1 = some (Except.error
        (⟨(text.splitOn TextSymbol.NEWLINE).getD lx1._line [], lx1._line,
          if lx1._column ≤ 0 then 1 else lx1._column⟩, lx1))) ∧
    letterLexer.tokenize ['a', 'b', 'c', '1', '2', '3'] [] 6 =
      some (Except.error ⟨['a', 'b', 'c', '1', '2', '3'], 0, 3⟩) := by
  obtain ⟨lxe, hinv, hlt, hfb, he⟩ := tokenize_error_spec h
  refine ⟨?_, ?_, ?_, by rfl⟩
  · rw [he]
    simp [mkUnexpectedCharacterError]
  · rw [he]
    simp only [mkUnexpectedCharacterError]
    split
    · omega
    · omega
  · intro lx1 fuel1 hlt1 hfb1
    simp only [Lexer.tokenizeLoop, if_pos hlt1, hfb1, mkUnexpectedCharacterError]

/-- Witness for C5 (amended) at the LETTER ruleset on `"abc123"`. -/
theorem lexical_error_report_amended_witness :
    (⟨['a', 'b', 'c', '1', '2', '3'], 0, 3⟩ :
        UnexpectedCharacterError).excerpt =
      ((['a', 'b', 'c', '1', '2', '3'] : List Char).splitOn
        TextSymbol.NEWLINE).getD
          (⟨['a', 'b', 'c', '1', '2', '3'], 0, 3⟩ :
            UnexpectedCharacterError).line [] ∧
    1 ≤ (⟨['a', 'b', 'c', '1', '2', '3'], 0, 3⟩ :
        UnexpectedCharacterError).column ∧
    (∀ (lx1 : Lexer Unit) (fuel1 : Nat),
      lx1._start < (['a', 'b', 'c', '1', '2', '3'] : List Char).length →
      lx1.findBest ['a', 'b', 'c', '1', '2', '3'] = none →
      Lexer.tokenizeLoop ['a', 'b', 'c', '1', '2', '3'] (fuel1 + 1) lx1 =
        some (Except.error
          (⟨((['a', 'b', 'c', '1', '2', '3'] : List Char).splitOn
              TextSymbol.NEWLINE).getD lx1._line [], lx1._line,
            if lx1._column ≤ 0 then 1 else lx1._column⟩, lx1))) ∧
    letterLexer.tokenize ['a', 'b', 'c', '1', '2', '3'] [] 6 =
      some (Except.error ⟨['a', 'b', 'c', '1', '2', '3'], 0, 3⟩) :=
  lexical_error_report_amended letterLexer ['a', 'b', 'c', '1', '2', '3']
    [] 6 ⟨['a', 'b', 'c', '1', '2', '3'], 0, 3⟩ (by rfl)

/-- C5 counterexample: with only the LETTER rule, tokenizing `"123"`
fails immediately: the state at the throw (returned by `tokenizeRun`)
still has column tracker 0, yet the raised error stores column 1 — the
error does not carry the current column number. -/
theorem error_column_counterexample :
    letterLexer.tokenize ['1', '2', '3'] [] 3 =
      some (Except.error ⟨['1', '2', '3'], 0, 1⟩) ∧
    letterLexer.tokenizeRun ['1', '2', '3'] [] 3 =
      some (Except.error ⟨['1', '2', '3'], 0, 1⟩,
        ⟨letterLexer.templates, [], 0, 0, 0⟩) ∧
    (1 : Nat) ≠ 0 :=
  ⟨rfl, rfl, by decide⟩

/-! ### C3 -/

/-- C3 (amended): in an unfiltered `tokenize` run, after a token whose
lexeme contains a newline, the following token's line counter equals the
number of newlines seen so far in the consumed text, and its column
counter restarts from 0 (its column is that of its own lexeme scanned
from column 0); the tracker update of `accept` on a line change resets
the column to 0 (it does not add the token's consumed width). -/
theorem newline_law_amended {α : Type} (lx : Lexer α) (text : List Char)
    (fuel : Nat) (ts : List (IToken α))
    (h : lx.tokenize text [] fuel = some (Except.ok ts)) :
    (∀ i, i + 1 < ts.length →
      TextSymbol.NEWLINE ∈ (ts.getD i default).lexeme →
      (ts.getD (i + 1) default).line =
        (text.take (ts.getD (i + 1) default).endPos).count
          TextSymbol.NEWLINE ∧
      (ts.getD (i + 1) default).column =
        (scanLexeme 0 0 (ts.getD (i + 1) default).lexeme).2) ∧
    (∀ (lx1 : Lexer α) (tok : IToken α), tok.line ≠ lx1._line →
      (lx1.accept tok)._column = 0) := by
  obtain ⟨lx1, hinv, hge, htpl, hloop, hts⟩ := tokenize_ok_inv h
  rw [filter_no_types] at hts
  subst hts
  obtain ⟨hchain, hle, hjoin, hline, htracks, htok⟩ := hinv
  constructor
  · intro i hi hnl
    constructor
    · exact htok _ (getD_mem default (by omega))
    · have hadj := tracksTo_adjacent htracks i hi hnl
      have hcol := congrArg Prod.snd hadj
      simp only at hcol
      rw [hcol]
      exact scanLexeme_snd_line_free _ _ 0 _
  · intro lx2 tok hne
    show (if tok.line ≠ lx2._line then 0
      else lx2._column + (tok.endPos - tok.start)) = 0
    rw [if_pos hne]

/-- Witness for C3 (amended): on `"foo\nbar"`, the token after the
newline token. -/
theorem newline_law_amended_witness :
    (fooNlBarTokens.getD 2 default).line =
      ((['f', 'o', 'o', '\n', 'b', 'a', 'r'] : List Char).take
        (fooNlBarTokens.getD 2 default).endPos).count TextSymbol.NEWLINE ∧
    (fooNlBarTokens.getD 2 default).column =
      (scanLexeme 0 0 (fooNlBarTokens.getD 2 default).lexeme).2 :=
  (newline_law_amended wordNlLexer ['f', 'o', 'o', '\n', 'b', 'a', 'r'] 7
      fooNlBarTokens (by rfl)).1 1 (by decide) (by decide)

/-- C3 counterexample: on `"a\nbc"` with rules `AB` = `a\nb` and
`C` = `c`, the token following the newline-carrying token has column
counter 1, while the count of non-newline characters after the last
newline seen so far is 2; and the `accept` tracker update on the line
change sets the column to 0, not 0 plus the consumed width 3. -/
theorem newline_column_counterexample :
    cexLexer.tokenize ['a', '\n', 'b', 'c'] [] 4 =
      some (Except.ok [cexTok0, cexTok1]) ∧
    TextSymbol.NEWLINE ∈ cexTok0.lexeme ∧
    charsAfterLastNewline
      ((['a', '\n', 'b', 'c'] : List Char).take cexTok1.endPos) = 2 ∧
    cexTok1.column = 1 ∧ (1 : Nat) ≠ 2 ∧
    (cexLexer.accept cexTok0)._column = 0 ∧
    cexTok0.endPos - cexTok0.start = 3 ∧ (0 : Nat) ≠ 3 :=
  ⟨rfl, by decide, by decide, rfl, by decide, by decide, by decide, by decide⟩

/-! ### C6 -/

lemma current_eq {α : Type} (p : Parser α) :
    p.current =
      if p.currentPosition < p.tokens.length then
        some (p.tokens.getD p.currentPosition default)
      else none := by
  unfold Parser.current Parser.lookAround
  by_cases h : p.currentPosition < p.tokens.length
  · have hcond : ¬(((p.currentPosition : Int) + 0 < 0) ∨
        ((p.tokens.length : Int) ≤ (p.currentPosition : Int) + 0)) := by
      omega
    rw [if_neg hcond, if_pos h]
    have htn : ((p.currentPosition : Int) + 0).toNat = p.currentPosition := by
      omega
    rw [htn]
  · have hcond : (((p.currentPosition : Int) + 0 < 0) ∨
        ((p.tokens.length : Int) ≤ (p.currentPosition : Int) + 0)) := by
      right
      omega
    rw [if_pos hcond, if_neg h]

lemma check_true_iff {α : Type} (p : Parser α) (identifier : String) :
    p.check identifier = true ↔
      p.currentPosition < p.tokens.length ∧
      (p.tokens.getD p.currentPosition default).tokenType = identifier := by
  unfold Parser.check
  rw [current_eq]
  by_cases h : p.currentPosition < p.tokens.length
  · simp [h]
  · simp [h]

/-- C6: for every cursor state, if `check(category)` holds then
`consume(category, message)` behaves exactly like `advance()` — it
returns the current token and leaves the state that `advance` leaves;
otherwise it returns the hard error carrying the diagnostic rendered by
`makeErrorMsg`, appends exactly the one given message to the soft-error
list, and leaves the cursor position unchanged. -/
theorem consume_contract {α : Type} (p : Parser α) (identifier : String)
    (errorMsg : List Char) :
    (p.check identifier = true →
      (p.consume identifier errorMsg).1 = Except.ok (p.advance).1 ∧
      p.current = some (p.advance).1 ∧
      (p.consume identifier errorMsg).2 = (p.advance).2) ∧
    (p.check identifier = false →
      (p.consume identifier errorMsg).1 =
        Except.error (p.makeErrorMsg errorMsg) ∧
      (p.consume identifier errorMsg).2.errors = p.errors ++ [errorMsg] ∧
      (p.consume identifier errorMsg).2.currentPosition =
        p.currentPosition) := by
  constructor
  · intro hc
    obtain ⟨hlt, -⟩ := (check_true_iff p identifier).mp hc
    refine ⟨?_, ?_, ?_⟩
    · simp [Parser.consume, hc]
    · rw [current_eq, if_pos hlt]
      rfl
    · simp [Parser.consume, hc]
  · intro hc
    refine ⟨?_, ?_, ?_⟩
    · simp [Parser.consume, hc]
    · simp [Parser.consume, hc]
    · simp [Parser.consume, hc]

/-- Witness for C6: the one-token cursor, on the matching category
`KEYWORD` and on the failing category `NUMBER`. -/
theorem consume_contract_witness :
    ((sampleParser.consume "KEYWORD" ['m']).1 =
        Except.ok (sampleParser.advance).1 ∧
      sampleParser.current = some (sampleParser.advance).1 ∧
      (sampleParser.consume "KEYWORD" ['m']).2 = (sampleParser.advance).2) ∧
    ((sampleParser.consume "NUMBER" ['m']).1 =
        Except.error (sampleParser.makeErrorMsg ['m']) ∧
      (sampleParser.consume "NUMBER" ['m']).2.errors =
        sampleParser.errors ++ [['m']] ∧
      (sampleParser.consume "NUMBER" ['m']).2.currentPosition =
        sampleParser.currentPosition) :=
  ⟨(consume_contract sampleParser "KEYWORD" ['m']).1 (by rfl),
   (consume_contract sampleParser "NUMBER" ['m']).2 (by rfl)⟩

/-! ### C7 -/

/-- C7: `makeErrorMsg(message)` locates the token immediately before the
current position (at position 0 it uses line 0 and column 0, with no
prior token), selects that token's line from the source split on newline
— or the whole source when the source contains no newline — builds a
marker line of `column` filler characters followed by a caret, and
returns a string containing the message, the source excerpt, and the
marker line. -/
theorem makeErrorMsg_contract {α : Type} (p : Parser α) (msg : List Char) :
    ∃ l1 r1 l2 r2 l3 r3 : List Char,
      p.makeErrorMsg msg = l1 ++ msg ++ r1 ∧
      p.makeErrorMsg msg = l2 ++
        (if p.source.contains TextSymbol.NEWLINE then
          (p.source.splitOn TextSymbol.NEWLINE).getD
            (if p.currentPosition = 0 then 0
             else (p.tokens.getD (p.currentPosition - 1) default).line) []
         else p.source) ++ r2 ∧
      p.makeErrorMsg msg = l3 ++
        (List.replicate
          (if p.currentPosition = 0 then 0
           else (p.tokens.getD (p.currentPosition - 1) default).column)
          TextSymbol.MINUS ++ [TextSymbol.CARET]) ++ r3 := by
  by_cases hp : p.currentPosition = 0
  · refine ⟨[],
      ": \n\t".toList ++ "Near here (column ".toList ++ (Nat.repr 0).toList
        ++ " on line ".toList ++ (Nat.repr 0).toList ++ "):".toList
        ++ "\n\t\t".toList
        ++ (if p.source.contains TextSymbol.NEWLINE then
              (p.source.splitOn TextSymbol.NEWLINE).getD 0 []
            else p.source)
        ++ "\n\t\t".toList
        ++ (List.replicate 0 TextSymbol.MINUS ++ [TextSymbol.CARET]),
      msg ++ ": \n\t".toList ++ "Near here (column ".toList
        ++ (Nat.repr 0).toList ++ " on line ".toList ++ (Nat.repr 0).toList
        ++ "):".toList ++ "\n\t\t".toList,
      "\n\t\t".toList ++ (List.replicate 0 TextSymbol.MINUS
        ++ [TextSymbol.CARET]),
      msg ++ ": \n\t".toList ++ "Near here (column ".toList
        ++ (Nat.repr 0).toList ++ " on line ".toList ++ (Nat.repr 0).toList
        ++ "):".toList ++ "\n\t\t".toList
        ++ (if p.source.contains TextSymbol.NEWLINE then
              (p.source.splitOn TextSymbol.NEWLINE).getD 0 []
            else p.source)
        ++ "\n\t\t".toList,
      [], ?_, ?_, ?_⟩ <;>
    simp [Parser.makeErrorMsg, hp, List.append_assoc]
  · refine ⟨[],
      ": \n\t".toList ++ "Near here (column ".toList
        ++ (Nat.repr (p.tokens.getD (p.currentPosition - 1) default).column).toList
        ++ " on line ".toList
        ++ (Nat.repr (p.tokens.getD (p.currentPosition - 1) default).line).toList
        ++ "):".toList ++ "\n\t\t".toList
        ++ (if p.source.contains TextSymbol.NEWLINE then
              (p.source.splitOn TextSymbol.NEWLINE).getD
                (p.tokens.getD (p.currentPosition - 1) default).line []
            else p.source)
        ++ "\n\t\t".toList
        ++ (List.replicate
              (p.tokens.getD (p.currentPosition - 1) default).column
              TextSymbol.MINUS ++ [TextSymbol.CARET]),
      msg ++ ": \n\t".toList ++ "Near here (column ".toList
        ++ (Nat.repr (p.tokens.getD (p.currentPosition - 1) default).column).toList
        ++ " on line ".toList
        ++ (Nat.repr (p.tokens.getD (p.currentPosition - 1) default).line).toList
        ++ "):".toList ++ "\n\t\t".toList,
      "\n\t\t".toList ++ (List.replicate
        (p.tokens.getD (p.currentPosition - 1) default).column
        TextSymbol.MINUS ++ [TextSymbol.CARET]),
      msg ++ ": \n\t".toList ++ "Near here (column ".toList
        ++ (Nat.repr (p.tokens.getD (p.currentPosition - 1) default).column).toList
        ++ " on line ".toList
        ++ (Nat.repr (p.tokens.getD (p.currentPosition - 1) default).line).toList
        ++ "):".toList ++ "\n\t\t".toList
        ++ (if p.source.contains TextSymbol.NEWLINE then
              (p.source.splitOn TextSymbol.NEWLINE).getD
                (p.tokens.getD (p.currentPosition - 1) default).line []
            else p.source)
        ++ "\n\t\t".toList,
      [], ?_, ?_, ?_⟩ <;>
    simp [Parser.makeErrorMsg, hp, List.append_assoc]
